import Mathlib

/-!
# Verification of the chemdataextractor-pv core

Shallow embedding, in Lean 4, of the core components of the
chemdataextractor-pv extraction pipeline, together with proofs about them:

* the abbreviation-aware tag corrector (`Sentence.ner_tags`,
  `doc/text.py` lines 546-576) and its lazy-cache behaviour;
* the entity span refiner (`Sentence.cems`, `doc/text.py` lines 578-654):
  trim, debracket, empty guard, split and special-case steps;
* the record model (`model/base.py`): serialization and equality;
* default installation on model construction (`model/base.py` lines 199-207),
  modelled over an explicit heap so that Python aliasing is visible;
* the intra-sentence record merger (`doc/text.py` lines 700-747).

Python lists of optional strings become `List (Option String)`, Python string
slices become `List Char` manipulations, and the in-place mutation performed
by the Python code becomes explicit state passing.
-/

namespace CdePv

/-! ## Tag corrector (`doc/text.py` lines 546-576)

`ner_tags` walks every start index `i` and every abbreviation definition
`(abbr, long, ner_tag)`; on `abbr == raw_tokens[i:i+len(abbr)]` it rewrites
`ner_tags[i]` to `B-tag`, the rest of the span to `I-tag`, and conditionally
clears tags on neighbouring bracket tokens.  A definition is the triple of
the short token texts, the long token texts and an optional entity tag. -/

/-- An abbreviation definition: short form token texts, long form token
texts, optional entity tag (`doc/text.py` line 535 produces such triples). -/
def AbbrDef : Type := List String × List String × Option String

/-- One body of the inner loop of `Sentence.ner_tags`
(`doc/text.py` lines 559-568): if the short form matches the token texts at
`i`, overwrite the span's tags and clear brackets subject to the source's
guards (`i > 1` for the preceding token, `i < len - 1` and token `i+1` for
the following token). -/
def applyDef (toks : List String) (tags : List (Option String)) (i : Nat)
    (d : AbbrDef) : List (Option String) :=
  let abbr := d.1
  let tag := d.2.2
  if abbr = (toks.drop i).take abbr.length then
    -- ner_tags[i] = 'B-%s' % ner_tag if ner_tag is not None else None
    let b := tag.map (fun t => "B-" ++ t)
    let iv := tag.map (fun t => "I-" ++ t)
    let t1 := tags.set i b
    -- ner_tags[i+1:i+len(abbr)] = ['I-%s' ...] * (len(abbr) - 1)
    let t2 := t1.take (i+1) ++ List.replicate (abbr.length - 1) iv
                ++ t1.drop (max (i+1) (i + abbr.length))
    -- if i > 1 and self.raw_tokens[i-1] == '(': ner_tags[i-1] = None
    let t3 := if 1 < i ∧ toks.getD (i-1) "" = "(" then t2.set (i-1) none else t2
    -- if i < len(self.raw_tokens) - 1 and self.raw_tokens[i+1] == ')': ner_tags[i+1] = None
    let t4 := if i < toks.length - 1 ∧ toks.getD (i+1) "" = ")" then t3.set (i+1) none else t3
    t4
  else tags

/-- The correction loop of `Sentence.ner_tags` (`doc/text.py` lines 558-568):
for every index `i` in `range(len(ner_tags))`, for every definition in
order, apply the rewrite when the short form matches. -/
def correctTags (toks : List String) (defs : List AbbrDef)
    (tags : List (Option String)) : List (Option String) :=
  (List.range tags.length).foldl
    (fun acc i => defs.foldl (fun acc2 d => applyDef toks acc2 i d) acc) tags

/-! ### Lazy caches (`doc/text.py` lines 509-516 and 546-576)

`unprocessed_ner_tags` is a `memoized_property`: its list is computed once
and the very same list object is cached on the instance.  `ner_tags` starts
from `ner_tags = self.unprocessed_ner_tags` — the cached object itself —
and performs its rewrites by in-place assignment, so every correction writes
through to the cached list.  The state below records the cached list; the
operations return the Python value together with the post-state. -/

/-- Cache state of a sentence: the memoized `unprocessed_ner_tags` list. -/
structure SentCache where
  unproc : Option (List (Option String))
  deriving DecidableEq

/-- `Sentence.unprocessed_ner_tags` (`doc/text.py` lines 509-516): on first
access compute the raw tag list and cache it, afterwards return the cached
list object. -/
def getUnprocessedNerTags (raw : List (Option String)) (s : SentCache) :
    List (Option String) × SentCache :=
  match s.unproc with
  | some l => (l, s)
  | none => (raw, ⟨some raw⟩)

/-- `Sentence.ner_tags` (`doc/text.py` lines 546-576): bind the cached
`unprocessed_ner_tags` list, rewrite it in place via the correction loop.
Because the rewrites mutate the shared list object, the cache afterwards
holds the corrected list. -/
def getNerTags (toks : List String) (defs : List AbbrDef)
    (raw : List (Option String)) (s : SentCache) :
    List (Option String) × SentCache :=
  let r := getUnprocessedNerTags raw s
  let l' := correctTags toks defs r.1
  (l', ⟨some l'⟩)

/-! ## Entity span refiner (`doc/text.py` lines 578-654)

The refiner works on the sentence text as a character list; a Python slice
`text[a:b]` is `slice t a b` below. -/

/-- Python slice `t[a:b]` on a character list (clamping, as in Python). -/
def slice (t : List Char) (a b : Nat) : List Char := (t.take b).drop a

/-- A final character span: covered text with absolute offsets
(`doc/text.py` `Span(text=..., start=..., end=...)`). -/
structure Span' where
  text : List Char
  start : Nat
  stop : Nat
  deriving DecidableEq

/-! ### Debracket step (`doc/text.py` lines 603-616) -/

/-- The level loop of the debracket step (`doc/text.py` lines 607-616):
enumerate `currenttext[1:]` with index `k`, update the depth `level`, and
strip (return `true`) when `level == 0 and k == len(currenttext) - 2`.
`n` is `len(currenttext)`. -/
def bracketLoop (bp : Char × Char) (n : Nat) : List Char → Nat → Int → Bool
  | [], _, _ => false
  | c :: rest, k, level =>
    let level' := if c = bp.1 then level + 1
                  else if c = bp.2 then level - 1 else level
    if level' = 0 ∧ k = n - 2 then true else bracketLoop bp n rest (k+1) level'

/-- The guard of the debracket step for one bracket pair
(`doc/text.py` line 606 plus the level loop): text longer than 2, first
char the opening bracket, last char the closing bracket, and the level
loop reaches zero at the final position. -/
def debracketCond (bp : Char × Char) (t : List Char) : Bool :=
  2 < t.length ∧ t.getD 0 ' ' = bp.1 ∧ t.getLastD ' ' = bp.2
    ∧ bracketLoop bp t.length (t.drop 1) 0 1

/-- The debracket step (`doc/text.py` lines 604-616): for each pair in
`[('(', ')'), ('[', ']')]`, with `currenttext` computed once before the
pair loop, advance `start` and retract `end` when the pair's guard holds. -/
def debracketStep (t : List Char) (s e : Nat) : Nat × Nat :=
  let p1 := if debracketCond ('(', ')') t then (s + 1, e - 1) else (s, e)
  if debracketCond ('[', ']') t then (p1.1 + 1, p1.2 - 1) else p1

/-! ### Separator tokenization (`doc/text.py` line 626)

The split step tokenizes the covered text on the regex
`(-|\+|\)?-to-\(?|···|/|\s)`.  The regex pattern is part of the source; the
matcher below implements exactly its alternation order and the greedy
optional brackets of the third branch. -/

/-- ASCII whitespace for the `\s` branch. -/
def isWS (c : Char) : Bool :=
  c = ' ' ∨ c = '\t' ∨ c = '\n' ∨ c = '\r' ∨ c = '\x0b' ∨ c = '\x0c'

/-- The branch `\)?-to-\(?`: greedy optional `)`, literal `-to-`, greedy
optional `(`; returns the matched length. -/
def matchToBranch (l : List Char) : Option Nat :=
  if l.take 5 = [')', '-', 't', 'o', '-'] then
    if (l.drop 5).take 1 = ['('] then some 6 else some 5
  else if l.take 4 = ['-', 't', 'o', '-'] then
    if (l.drop 4).take 1 = ['('] then some 5 else some 4
  else none

/-- Match of the separator regex `(-|\+|\)?-to-\(?|···|/|\s)` at the head of
`l`, trying the alternation branches in the source's order; returns the
matched length. -/
def sepMatchAt (l : List Char) : Option Nat :=
  match l with
  | [] => none
  | c :: _ =>
    if c = '-' then some 1
    else if c = '+' then some 1
    else match matchToBranch l with
      | some n => some n
      | none =>
        if l.take 3 = ['·', '·', '·'] then some 3
        else if c = '/' then some 1
        else if isWS c then some 1
        else none

/-- Leftmost separator match at or after `pos`: position and length. -/
def firstSepFrom (t : List Char) (pos fuel : Nat) : Option (Nat × Nat) :=
  match fuel with
  | 0 => none
  | fuel + 1 =>
    if pos < t.length then
      match sepMatchAt (t.drop pos) with
      | some n => some (pos, n)
      | none => firstSepFrom t (pos + 1) fuel
    else none

/-- All separator matches of the text, left to right (as `re.finditer`),
as `(start, end)` pairs. -/
def sepMatches (t : List Char) (pos fuel : Nat) : List (Nat × Nat) :=
  match fuel with
  | 0 => []
  | fuel + 1 =>
    match firstSepFrom t pos (t.length + 1) with
    | some (i, n) => (i, i + n) :: sepMatches t (i + n) fuel
    | none => []

/-- Modelled from the spec: `regex_span_tokenize` lives in
`nlp/tokenize.py`, which is not under `src/`; per the spec it tokenizes the
covered text on the separator regex, yielding the gaps between separator
matches (a leading empty gap is dropped, the trailing gap always emitted). -/
def spanTokenizeSep (t : List Char) : List (Nat × Nat) :=
  let ms := sepMatches t 0 (t.length + 1)
  let step := ms.foldl
    (fun (acc : List (Nat × Nat) × Nat) m =>
      if m.1 ≠ 0 then (acc.1 ++ [(acc.2, m.1)], m.2) else (acc.1, m.2))
    ([], 0)
  step.1 ++ [(step.2, t.length)]

/-! ### The refiner pipeline (`doc/text.py` lines 586-654) -/

/-- The refiner's configuration.  Modelled from the spec: the fixed ordered
lists `IGNORE_PREFIX`, `IGNORE_SUFFIX`, `SPLITS` and `SPECIALS` live in
`nlp/cem.py`, which is not under `src/`; per the spec they are fixed ordered
lists of disallowed prefixes/suffixes, split rules (a predicate on each
component, `re.search`) and special regexes (returning the captured groups'
ranges within the candidate text, `re.search`). -/
structure RefCfg where
  prefixes : List (List Char)
  suffixes : List (List Char)
  splits : List (List Char → Bool)
  specials : List (List Char → Option (List (Nat × Nat)))

/-- The entity span refiner for one raw hit (`doc/text.py` lines 591-653):
trim, debracket, empty guard, split, special-case, producing the final
spans.  `sent` is the sentence text (with `self.start = 0`), `[s0, e0)` the
raw character range of the hit. -/
def refine (cfg : RefCfg) (sent : List Char) (s0 e0 : Nat) : List Span' :=
  -- Step 1: trim (lines 592-602); the lowered text is computed once and
  -- used for both the prefix and the suffix test
  let lowered := (slice sent s0 e0).map Char.toLower
  let s1 := match cfg.prefixes.find? (fun p => p.isPrefixOf lowered) with
    | some p => s0 + p.length
    | none => s0
  let e1 := match cfg.suffixes.find? (fun p => p.isSuffixOf lowered) with
    | some p => e0 - p.length
    | none => e0
  -- Step 2: debracket (lines 603-616)
  let p2 := debracketStep (slice sent s1 e1) s1 e1
  let s2 := p2.1
  let e2 := p2.2
  -- Step 3: empty guard (lines 618-620)
  if s2 ≥ e2 then [] else
  -- Step 4: split (lines 622-639)
  let ct := slice sent s2 e2
  let comps := spanTokenizeSep ct
  let split_spans :=
    if 1 < comps.length then
      match cfg.splits.find? (fun rule => comps.all (fun c => rule (slice ct c.1 c.2))) with
      | some _ => comps.map (fun c => Span'.mk (slice ct c.1 c.2) (s2 + c.1) (s2 + c.2))
      | none => [Span'.mk ct s2 e2]
    else [Span'.mk ct s2 e2]
  -- Step 5: specials (lines 641-653)
  split_spans.flatMap (fun sp =>
    match cfg.specials.findSome? (fun f => f sp.text) with
    | some groups => groups.map (fun g =>
        Span'.mk (slice sp.text g.1 g.2) (sp.start + g.1) (sp.start + g.2))
    | none => [sp])

/-- The all-empty configuration (no trim lists, no split rules, no special
regexes). -/
def emptyCfg : RefCfg := ⟨[], [], [], []⟩

/-! ## Model serialization (`model/base.py` lines 307-320)

A model value is a tree: `vNone`/`vStr`/`vList` for scalar and list field
values, `vModel` for an unserialized nested model (its list of fields with
their `null` flags), `vDict` for a serialized dictionary. -/

/-- Python values as they flow through `BaseModel.serialize`. -/
inductive PVal where
  | vNone
  | vStr (s : String)
  | vList (xs : List PVal)
  | vModel (fs : List (String × Bool × PVal))
  | vDict (fs : List (String × PVal))

/-- Python's `value in [None, '', []]` test used at `model/base.py`
line 317 (a dict or a model instance compares unequal to all three). -/
def isEmptyVal : PVal → Bool
  | .vNone => true
  | .vStr s => s = ""
  | .vList xs => xs.isEmpty
  | _ => false

mutual
/-- Field-level serialization (`model/base.py` lines 95-101, 130-132 and
162-164): a nested model serializes recursively, a list maps the inner
field's serialization over its elements, scalars pass through. -/
def serializeVal : PVal → PVal
  | .vNone => .vNone
  | .vStr s => .vStr s
  | .vList xs => .vList (serializeList xs)
  | .vModel fs => .vDict (serializeModel fs)
  | .vDict fs => .vDict fs

/-- `ListType.serialize` (`model/base.py` lines 162-164). -/
def serializeList : List PVal → List PVal
  | [] => []
  | x :: xs => serializeVal x :: serializeList xs

/-- `BaseModel.serialize` (`model/base.py` lines 307-320): iterate the
fields in order into `data`; serialize each non-`None` value; skip a field
whose serialized value is `None`, `''` or `[]` unless its `null` flag is
set; return the bare `data` dictionary. -/
def serializeModel : List (String × Bool × PVal) → List (String × PVal)
  | [] => []
  | (name, nullb, value) :: fs =>
    -- if value is not None: value = field.serialize(value, primitive=primitive)
    let v := match value with
      | .vNone => PVal.vNone
      | value => serializeVal value
    -- if not field.null and value in [None, '', []]: continue
    if ¬nullb ∧ isEmptyVal v then serializeModel fs
    else (name, v) :: serializeModel fs
end

/-- The spec's per-field account of serialization, for comparison with
`serializeModel`: exactly one entry per field whose serialized value is
non-empty or whose field declares `null`. -/
def serializeSpecFields (fs : List (String × Bool × PVal)) : List (String × PVal) :=
  fs.filterMap (fun f =>
    let v := serializeVal f.2.2
    if f.2.1 ∨ ¬isEmptyVal v then some (f.1, v) else none)

/-! ## Default installation on construction (`model/base.py` lines 199-207)

`BaseModel.__init__` installs `copy.copy(field.default)` for every unset
field, routed through the field descriptor's `__set__`.  To make Python's
aliasing visible, list objects live on an explicit heap: a value is either
an immutable scalar or a reference to a heap cell holding a list of
values.  `copy.copy` of a list allocates a fresh cell with the same element
values (nested references shared); `ListType.__set__` builds another fresh
list from the processed elements (the inner `process` is the identity for
nested model/list fields). -/

/-- A Python value: an immutable scalar or a reference to a heap list. -/
inductive PyObj where
  | vInt (n : Int)
  | vRef (a : Nat)
  deriving DecidableEq

/-- The heap: address `a` holds the list at index `a`. -/
abbrev Heap : Type := List (List PyObj)

/-- Contents of the heap cell at `a`. -/
def lookupH (h : Heap) (a : Nat) : List PyObj := h.getD a []

/-- `copy.copy` on a value (`model/base.py` line 207): for a list object,
allocate a fresh cell containing the same element values — a shallow copy;
scalars are returned as-is. -/
def copyShallow (h : Heap) (v : PyObj) : PyObj × Heap :=
  match v with
  | .vInt n => (.vInt n, h)
  | .vRef a => (.vRef h.length, h ++ [lookupH h a])

/-- `ListType.__set__` (`model/base.py` lines 154-160): store a new list
built from the processed elements; with an identity inner `process` the
elements are passed through by reference. -/
def listTypeSet (h : Heap) (v : PyObj) : PyObj × Heap :=
  match v with
  | .vInt n => (.vInt n, h)
  | .vRef a => (.vRef h.length, h ++ [lookupH h a])

/-- Default installation for one unset list field
(`model/base.py` line 207): `setattr(self, key, copy.copy(field.default))`,
i.e. a shallow copy fed through the field's `__set__`. -/
def initDefault (h : Heap) (d : PyObj) : PyObj × Heap :=
  let c := copyShallow h d
  listTypeSet c.2 c.1

/-- In-place update `v[i] = x` of a list object. -/
def writeElem (h : Heap) (v : PyObj) (i : Nat) (x : PyObj) : Heap :=
  match v with
  | .vRef a => h.set a ((lookupH h a).set i x)
  | _ => h

/-- Read `v[i]` from a list object. -/
def readElem (h : Heap) (v : PyObj) (i : Nat) : PyObj :=
  match v with
  | .vRef a => (lookupH h a).getD i (.vInt 0)
  | _ => .vInt 0

/-! ## Model equality (`model/base.py` lines 215-219)

`BaseModel.__eq__` returns the value-map comparison when `other` is an
`isinstance` of `self`'s class and `False` otherwise.  Since every model
type inherits the same `__eq__`, Python evaluates `m1 == m2` as
`m1.__eq__(m2)`.  Classes and value maps are kept abstract: `instOf c c'`
says an object of class `c` is an instance of class `c'`, and `vEq` is the
value-map comparison. -/

/-- `BaseModel.__eq__` (`model/base.py` lines 215-219). -/
def eqMethod {C V : Type} (instOf : C → C → Bool) (vEq : V → V → Bool)
    (selfCls otherCls : C) (selfVals otherVals : V) : Bool :=
  if instOf otherCls selfCls then vEq selfVals otherVals else false

/-! ## Record merger: dedup of anchor hits (`doc/text.py` lines 700-737)

The anchor record type `Compound` lives in `model/model.py`, which is not
under `src/`.  Modelled from the spec: the anchor record carries name,
label and role sets (list-valued fields with empty defaults), and its
serialized data keeps exactly the non-empty fields, per
`BaseModel.serialize`. -/

/-- Modelled from the spec: the anchor (`Compound`) record with its
name/label/role list fields (`model/model.py` is absent from `src/`). -/
structure CompoundR where
  names : List String
  labels : List String
  roles : List String
  deriving DecidableEq

/-- Modelled from the spec: the field data of a serialized anchor record —
one entry per non-empty field, as `BaseModel.serialize` produces
(all three fields have `null=False` and default `[]`). -/
def compoundData (c : CompoundR) : List (String × List String) :=
  (if c.names ≠ [] then [("names", c.names)] else [])
    ++ (if c.labels ≠ [] then [("labels", c.labels)] else [])
    ++ (if c.roles ≠ [] then [("roles", c.roles)] else [])

/-- Code-point comparison of strings, as Python's `<=` on `str`. -/
def charsLe : List Char → List Char → Bool
  | [], _ => true
  | _ :: _, [] => false
  | a :: as, b :: bs =>
    if a.toNat < b.toNat then true
    else if b.toNat < a.toNat then false
    else charsLe as bs

/-- Insert a string into an ascending list. -/
def insertSorted (x : String) : List String → List String
  | [] => [x]
  | y :: ys => if charsLe x.data y.data then x :: y :: ys else y :: insertSorted x ys

/-- Python's `sorted` on a list of strings. -/
def sortStr : List String → List String
  | [] => []
  | x :: xs => insertSorted x (sortStr xs)

/-- `sorted(list(set(a).union(b)))` (`doc/text.py` lines 729-731). -/
def sortedUnion (a b : List String) : List String := sortStr ((a ++ b).dedup)

/-- `not set(record.names).isdisjoint(seen_record.names) or not
set(record.labels).isdisjoint(seen_record.labels)`
(`doc/text.py` lines 727-728). -/
def sharesNameOrLabel (rec seen : CompoundR) : Bool :=
  rec.names.any (· ∈ seen.names) || rec.labels.any (· ∈ seen.labels)

/-- In-place union of the hit into an accepted anchor record
(`doc/text.py` lines 729-731). -/
def mergeInto (seen rec : CompoundR) : CompoundR :=
  ⟨sortedUnion seen.names rec.names,
   sortedUnion seen.labels rec.labels,
   sortedUnion seen.roles rec.roles⟩

/-- One iteration of the record-acceptance loop for an anchor hit
(`doc/text.py` lines 710-737), on the state (accepted records, seen
labels): discard empty serializations and exact duplicates; skip a hit
whose data is only labels/roles with labels already seen; otherwise record
its labels as seen, union it into every accepted record sharing a name or
label, and append it only when no such record exists. -/
def stepHit (st : List CompoundR × List String) (rec : CompoundR) :
    List CompoundR × List String :=
  let records := st.1
  let seen := st.2
  let p := compoundData rec
  -- if not p: continue
  if p = [] then st
  -- if record in records: continue
  else if rec ∈ records then st
  -- if all(k in {'labels', 'roles'} for k in p['Compound'].keys())
  --    and set(record.labels).issubset(seen_labels): continue
  else if p.all (fun kv => kv.1 = "labels" ∨ kv.1 = "roles")
          ∧ rec.labels.all (· ∈ seen) then st
  else
    -- seen_labels.update(record.labels)
    let seen' := seen ++ rec.labels
    let found := records.any (fun sr => sharesNameOrLabel rec sr)
    let records' := records.map
      (fun sr => if sharesNameOrLabel rec sr then mergeInto sr rec else sr)
    if found then (records', seen') else (records' ++ [rec], seen')

/-- The acceptance loop over the raw anchor hits of one sentence
(`doc/text.py` lines 703-737). -/
def processHits (hits : List CompoundR) : List CompoundR × List String :=
  hits.foldl stepHit ([], [])

/-! ## Record merger: all-pairs merge pass (`doc/text.py` lines 738-747)

`records[j].merge_all(records[i])` runs over every ordered pair `i ≠ j`.
`merge_all` itself is defined on `BaseModel` outside `src/`.  A record is
its field-value map `Nat → Option Nat`; `ctx f` tells whether field `f` is
contextual. -/

/-- A record as a field-value map. -/
abbrev MRec : Type := Nat → Option Nat

/-- The empty record. -/
def mrecNone : MRec := fun _ => none

/-- Modelled from the spec: `BaseModel.merge_all` is not under `src/`; per
§4.4 it unifies the donor's contextual data into the record in place,
backfilling each empty contextual field from the donor and leaving
non-empty fields unchanged. -/
def mergeAllRec (ctx : Nat → Bool) (self donor : MRec) : MRec := fun f =>
  match self f with
  | some v => some v
  | none => if ctx f then donor f else none

/-- The inner `while j < length` loop of the merge pass
(`doc/text.py` lines 741-745) for a fixed donor index `i`: every record
but the `i`-th merges the donor's data (the donor entry itself is never
written during the inner loop). -/
def mergePassInner (ctx : Nat → Bool) (recs : List MRec) (i : Nat) : List MRec :=
  recs.mapIdx (fun j r => if j = i then r else mergeAllRec ctx r (recs.getD i mrecNone))

/-- The full all-pairs merge pass (`doc/text.py` lines 738-747): donors
`i = 0, 1, ..., length - 1` in order. -/
def mergePass (ctx : Nat → Bool) (recs : List MRec) : List MRec :=
  (List.range recs.length).foldl (mergePassInner ctx) recs

/-- Whether some record of the list has field `f` set. -/
def anyHas (recs : List MRec) (f : Nat) : Bool :=
  recs.any (fun r => (r f).isSome)

/-- The closed form of the merge pass on conflict-free record sets: a
record keeps every non-empty field and every empty contextual field is
backfilled with the common value `v0 f` as soon as any record of the set
carries field `f`. -/
def fillWith (ctx : Nat → Bool) (v0 : Nat → Nat) (recs : List MRec) (r : MRec) : MRec :=
  fun f =>
    match r f with
    | some v => some v
    | none => if ctx f && anyHas recs f then some (v0 f) else none

/-- No two records of the set disagree on a contextual field's value:
every stored value at a contextual field `f` equals `v0 f`.
Non-contextual fields are unconstrained — `merge_all` never reads or
writes them. -/
def conflictFree (ctx : Nat → Bool) (v0 : Nat → Nat) (recs : List MRec) : Prop :=
  ∀ r ∈ recs, ∀ f v, ctx f = true → r f = some v → v = v0 f

/-! ## Auxiliary definitions used by the statements below -/

/-- The value of the debracket level counter after processing interior
position `k` (position `k` of `currenttext[1:]`), starting from 1 as the
source loop does. -/
def levelAfter (bp : Char × Char) (t : List Char) (k : Nat) : Int :=
  ((t.drop 1).take (k+1)).foldl
    (fun l c => if c = bp.1 then l + 1 else if c = bp.2 then l - 1 else l) 1

/-- The invariant of the merge pass relating the current record list to the
original one after the donors `0, ..., k-1` have been processed: lengths
agree; non-contextual and originally non-empty fields are untouched; every
stored value at a contextual field is the conflict-free common value of a
field some original record carries (non-contextual fields need no value
clause, being untouched); and once some donor below `k` originally carried
a field, every record's contextual copy of that field is filled. -/
def mergeInv (ctx : Nat → Bool) (v0 : Nat → Nat) (orig cur : List MRec) (k : Nat) : Prop :=
  cur.length = orig.length ∧
  (∀ j f, ctx f = false → (cur.getD j mrecNone) f = (orig.getD j mrecNone) f) ∧
  (∀ j f, ((orig.getD j mrecNone) f).isSome → (cur.getD j mrecNone) f = (orig.getD j mrecNone) f) ∧
  (∀ j f v, ctx f = true → (cur.getD j mrecNone) f = some v → v = v0 f ∧ anyHas orig f = true) ∧
  (∀ j f, j < orig.length → ctx f = true →
    (∃ i, i < k ∧ ((orig.getD i mrecNone) f).isSome) → ((cur.getD j mrecNone) f).isSome)

/-- A fully-populated record holding value 1 everywhere. -/
def recOne : MRec := fun _ => some 1

/-- A fully-populated record holding value 2 everywhere. -/
def recTwo : MRec := fun _ => some 2

/-- An all-contextual field map. -/
def ctxAll : Nat → Bool := fun _ => true

/-- A one-cell heap used to witness the default-installation theorem. -/
def hW : Heap := [[PyObj.vInt 0]]

/-- A two-class hierarchy on `Nat` class tags: class 1 is a proper subclass
of class 0; `instOfW c t` says an object of class `c` is an instance of
class `t`. -/
def instOfW : Nat → Nat → Bool := fun c t => (c == t) || ((c == 1) && (t == 0))

/-- Value-map comparison on `Nat` value maps. -/
def vEqW : Nat → Nat → Bool := fun a b => a == b

/-! # Theorems -/

/-- Claim C1: the claim states that for tokens `["(", "H","2","O","2", ")"]`
and the definition `short=["H","2","O","2"]`, `tag="compound"`, every raw
tag sequence of length 6 is corrected to
`[None, B-compound, I-compound, I-compound, I-compound, None]`, the bracket
tags being cleared.  The code disagrees: the match is at `i = 1`, the
preceding-bracket guard is `i > 1` (false), and the following-bracket test
inspects token `i+1 = 2` (inside the span, not after it), so a raw sequence
with non-`None` tags on the brackets keeps them. -/
theorem c1_bracket_tags_not_cleared :
    correctTags ["(", "H", "2", "O", "2", ")"]
      [(["H", "2", "O", "2"], ["hydrogen", "peroxide"], some "compound")]
      [some "B-CM", none, none, none, none, some "B-CM"]
    = [some "B-CM", some "B-compound", some "I-compound", some "I-compound",
       some "I-compound", some "B-CM"] ∧
    [some "B-CM", some "B-compound", some "I-compound", some "I-compound",
       some "I-compound", (some "B-CM" : Option String)]
    ≠ [none, some "B-compound", some "I-compound", some "I-compound",
       some "I-compound", none] := by
  decide

/-- Claim C6: the claim states that computing `ner_tags` leaves the cached
`unprocessed_ner_tags` sequence unchanged.  The code binds the cached list
object and rewrites it in place, so after computing `ner_tags` the cache
holds the corrected sequence: at the `H2O2` input the cache moves from the
all-`None` raw sequence to the corrected one. -/
theorem c6_cache_mutated :
    ((getUnprocessedNerTags [none, none, none, none, none, none] ⟨none⟩).2).unproc
      = some [none, none, none, none, none, none] ∧
    (getNerTags ["(", "H", "2", "O", "2", ")"]
        [(["H", "2", "O", "2"], ["hydrogen", "peroxide"], some "compound")]
        [none, none, none, none, none, none]
        (getUnprocessedNerTags [none, none, none, none, none, none] ⟨none⟩).2).2.unproc
      = some [none, some "B-compound", some "I-compound", some "I-compound",
              some "I-compound", none] ∧
    some [none, some "B-compound", some "I-compound", some "I-compound",
          some "I-compound", (none : Option String)]
      ≠ some [none, none, none, none, none, (none : Option String)] := by
  decide

/-- Claim C9, counterexample: an empty short form matches `raw_tokens[i:i]`
(the empty slice) at every start index, so the correction overwrites the
tag sequence instead of leaving it unchanged. -/
theorem c9_counterexample :
    correctTags ["x"] [([], ["l"], some "compound")] [some "B-CM"]
      = [some "B-compound"] ∧
    [some "B-compound"] ≠ [(some "B-CM" : Option String)] := by
  decide

/-- Claim C7, counterexample: on `"(a)(b)"` the interior depth counter
returns to 0 already at interior position 1 (before the final position 4),
yet the debracket step strips a character from each end, because the source
loop only tests the counter at the final position. -/
theorem c7_counterexample :
    debracketStep "(a)(b)".data 0 6 = (1, 5) ∧
    levelAfter ('(', ')') "(a)(b)".data 1 = 0 ∧
    1 < "(a)(b)".data.length - 2 := by
  decide

/-- Claim C8, counterexample: refining the raw hit `"((x))"` emits the span
`"(x)"`, and re-applying the refinement steps to that emitted span strips
the brackets again, yielding `"x"` — the refiner is not idempotent on its
own output. -/
theorem c8_counterexample :
    refine emptyCfg "((x))".data 0 5 = [⟨"(x)".data, 1, 4⟩] ∧
    refine emptyCfg "((x))".data 1 4 = [⟨"x".data, 2, 3⟩] ∧
    (⟨"x".data, 2, 3⟩ : Span') ≠ ⟨"(x)".data, 1, 4⟩ := by
  decide

/-- Claim C4, counterexample: `BaseModel.serialize` returns the bare field
dictionary; for a model with one non-empty field `names` the result has the
single key `names` and no `type` entry, contradicting the claimed
`{"type": type-name}` component. -/
theorem c4_counterexample :
    (serializeModel [("names", false, PVal.vList [PVal.vStr "A"])]).map Prod.fst
      = ["names"] ∧
    "type" ∉ (serializeModel [("names", false, PVal.vList [PVal.vStr "A"])]).map Prod.fst := by
  decide

/-- Claim C5, counterexample: `__init__` installs `copy.copy` — a shallow
copy — of the default, so state nested one level below the top is shared.
With default `[[0]]` (a reference to a cell holding a reference to `[0]`),
two fresh instances share the inner cell: writing 7 through instance 1 at
depth 2 makes instance 2 and the class default read 7. -/
theorem c5_counterexample :
    let h0 : Heap := [[PyObj.vRef 1], [PyObj.vInt 0]]
    let d : PyObj := PyObj.vRef 0
    let i1 := initDefault h0 d
    let i2 := initDefault i1.2 d
    let h3 := writeElem i2.2 (readElem i2.2 i1.1 0) 0 (PyObj.vInt 7)
    readElem i2.2 (readElem i2.2 i2.1 0) 0 = PyObj.vInt 0 ∧
    readElem h3 (readElem h3 i2.1 0) 0 = PyObj.vInt 7 ∧
    readElem h3 (readElem h3 d 0) 0 = PyObj.vInt 7 := by
  decide

/-- Claim C3, counterexample: two acceptance orders of the same three
records (value 1 everywhere, value 2 everywhere, empty) leave the empty
record with different final values for field 0 — the merge pass is not
order independent when records carry conflicting values. -/
theorem c3_counterexample :
    ([recOne, recTwo, mrecNone] : List MRec).Perm [recTwo, recOne, mrecNone] ∧
    (mergePass ctxAll [recOne, recTwo, mrecNone]).getD 2 mrecNone 0 = some 1 ∧
    (mergePass ctxAll [recTwo, recOne, mrecNone]).getD 2 mrecNone 0 = some 2 ∧
    (mergePass ctxAll [recOne, recTwo, mrecNone]).getD 2 mrecNone 0
      ≠ (mergePass ctxAll [recTwo, recOne, mrecNone]).getD 2 mrecNone 0 := by
  exact ⟨List.Perm.swap recTwo recOne [mrecNone], rfl, rfl, by decide⟩

/-- Claim C10: `BaseModel.__eq__` is `isinstance`-gated, hence asymmetric
across subclassing: `m1 == m2` is `False` whenever `m2` is not an instance
of `m1`'s class even with equal value maps, and for a proper subclass `S`
of `T` with equal value maps, `t == s` holds but `s == t` does not. -/
theorem c10_eq_gated (C V : Type) (instOf : C → C → Bool) (vEq : V → V → Bool) :
    (∀ c1 c2 v1 v2, instOf c2 c1 = false → vEq v1 v2 = true →
        eqMethod instOf vEq c1 c2 v1 v2 = false) ∧
    (∀ cT cS vT vS, instOf cS cT = true → instOf cT cS = false →
        vEq vT vS = true → vEq vS vT = true →
        eqMethod instOf vEq cT cS vT vS = true ∧
        eqMethod instOf vEq cS cT vS vT = false) := by
  constructor
  · intro c1 c2 v1 v2 h _
    simp [eqMethod, h]
  · intro cT cS vT vS hST hTS hv _
    exact ⟨by simp [eqMethod, hST, hv], by simp [eqMethod, hTS]⟩

/-- Witness for C10 at the concrete two-class hierarchy `instOfW`
(class 1 a proper subclass of class 0) with equal value maps. -/
theorem c10_eq_gated_witness :
    (instOfW 1 0 = true ∧ instOfW 0 1 = false ∧ vEqW 42 42 = true) ∧
    (eqMethod instOfW vEqW 0 1 42 42 = true ∧
     eqMethod instOfW vEqW 1 0 42 42 = false) :=
  ⟨⟨by decide, by decide, by decide⟩,
   (c10_eq_gated Nat Nat instOfW vEqW).2 0 1 42 42 (by decide) (by decide)
     (by decide) (by decide)⟩

/-- Unfolding equation for `serializeModel` on a field entry: the
serialized value is kept exactly when the `null` flag is set or the value
is non-empty. -/
theorem serializeModel_cons (name : String) (nullb : Bool) (value : PVal)
    (fs : List (String × Bool × PVal)) :
    serializeModel ((name, nullb, value) :: fs)
      = if ¬nullb ∧ isEmptyVal (serializeVal value) then serializeModel fs
        else (name, serializeVal value) :: serializeModel fs := by
  cases value <;> rfl

/-- Claim C4, amended: `BaseModel.serialize` returns exactly one entry per
field whose serialized value is non-empty or whose field declares `null`,
omitting every field whose value is `None`, `''` or `[]` with `null` unset
— and nothing else: no `type` entry is added. -/
theorem c4_amended (fs : List (String × Bool × PVal)) :
    serializeModel fs = serializeSpecFields fs := by
  induction fs with
  | nil => rfl
  | cons f fs ih =>
    obtain ⟨name, nullb, value⟩ := f
    rw [serializeModel_cons]
    cases nullb <;> cases hEmpty : isEmptyVal (serializeVal value) <;>
      simp [serializeSpecFields, List.filterMap_cons, hEmpty, ih]

/-- Claim C2: a first anchor hit with names `{"A"}` is accepted; a second
hit with names `{"A","B"}` (any label set) is unioned into the accepted
record in place — the result is the single record with names `{"A","B"}`
and the union of the label sets, with no new record appended. -/
theorem c2_dedup_union (L1 L2 : List String) :
    (processHits [⟨["A"], L1, []⟩, ⟨["A", "B"], L2, []⟩]).1
      = [⟨["A", "B"], sortedUnion L1 L2, []⟩] := by
  rcases eq_or_ne L1 ([] : List String) with h1 | h1 <;>
    rcases eq_or_ne L2 ([] : List String) with h2 | h2 <;>
      simp [processHits, stepHit, compoundData, sharesNameOrLabel, mergeInto, h1, h2,
        CompoundR.mk.injEq] <;> decide

/-- One application of the corrector body for a zero-length short form:
the slice comparison always succeeds, the span rewrite reduces to setting
position `i`, and in a bracket-free sentence the bracket clearing never
fires. -/
theorem applyDef_empty_short (toks : List String) (tags : List (Option String))
    (i : Nat) (lng : List String) (tag : String)
    (hb : ∀ t ∈ toks, t ≠ "(" ∧ t ≠ ")") :
    applyDef toks tags i ([], lng, some tag) = tags.set i (some ("B-" ++ tag)) := by
  unfold applyDef
  have hg1 : ¬ (1 < i ∧ toks.getD (i-1) "" = "(") := by
    rintro ⟨-, hg⟩
    by_cases hlt : i - 1 < toks.length
    · rw [List.getD_eq_getElem _ _ hlt] at hg
      exact (hb _ (List.getElem_mem hlt)).1 hg
    · rw [List.getD_eq_default _ _ (Nat.le_of_not_lt hlt)] at hg
      simp at hg
  have hg2 : ¬ (i < toks.length - 1 ∧ toks.getD (i+1) "" = ")") := by
    rintro ⟨hi, hg⟩
    have hlt : i + 1 < toks.length := by omega
    rw [List.getD_eq_getElem _ _ hlt] at hg
    exact (hb _ (List.getElem_mem hlt)).2 hg
  simp only [List.getD_eq_getElem?_getD] at hg1 hg2
  simp [hg1, hg2, List.take_append_drop, Nat.max_eq_left (Nat.le_succ i)]

/-- Setting every index of `range k` in turn overwrites the first `k`
entries. -/
theorem foldl_set_range (b : Option String) :
    ∀ (k : Nat) (l : List (Option String)), k ≤ l.length →
      (List.range k).foldl (fun acc i => acc.set i b) l
        = List.replicate k b ++ l.drop k := by
  intro k
  induction k with
  | zero => intro l _; simp
  | succ k ih =>
    intro l hk
    rw [List.range_succ, List.foldl_append, ih l (by omega)]
    have hk' : k < l.length := by omega
    have hrep : (List.replicate k b).length = k := List.length_replicate k b
    simp only [List.foldl_cons, List.foldl_nil]
    rw [List.set_append, if_neg (by omega : ¬ k < (List.replicate k b).length)]
    rw [hrep, Nat.sub_self, List.drop_eq_getElem_cons hk']
    simp [List.replicate_succ' k b, List.set]

/-- Claim C9, amended: a zero-length short form matches at every start
index, so far from leaving the sequence unchanged, the correction
overwrites every position's tag with `B-{tag}` (in a sentence without
bracket tokens, where the bracket-clearing side effects stay quiet). -/
theorem c9_amended (toks : List String) (tags : List (Option String))
    (lng : List String) (tag : String)
    (_hlen : toks.length = tags.length)
    (hb : ∀ t ∈ toks, t ≠ "(" ∧ t ≠ ")") :
    correctTags toks [([], lng, some tag)] tags
      = List.replicate tags.length (some ("B-" ++ tag)) := by
  unfold correctTags
  have hbody : (fun (acc : List (Option String)) (i : Nat) =>
      [(([] : List String), lng, some tag)].foldl (fun acc2 d => applyDef toks acc2 i d) acc)
      = fun acc i => acc.set i (some ("B-" ++ tag)) := by
    funext acc i
    simp [applyDef_empty_short toks acc i lng tag hb]
  rw [hbody, foldl_set_range _ tags.length tags le_rfl]
  simp

/-- Witness for C9 at a concrete bracket-free sentence. -/
theorem c9_amended_witness :
    (["x", "y"] : List String).length = ([none, some "T"] : List (Option String)).length ∧
    (∀ t ∈ (["x", "y"] : List String), t ≠ "(" ∧ t ≠ ")") ∧
    correctTags ["x", "y"] [([], ["l"], some "compound")] [none, some "T"]
      = List.replicate ([none, some "T"] : List (Option String)).length
          (some ("B-" ++ "compound")) :=
  ⟨by decide, by decide, c9_amended ["x", "y"] [none, some "T"] ["l"] "compound"
    (by decide) (by decide)⟩

/-- A heap cell update at one address leaves every other address's
contents unchanged. -/
theorem lookupH_set_ne (h : Heap) (a b : Nat) (l : List PyObj) (hab : a ≠ b) :
    lookupH (h.set a l) b = lookupH h b := by
  unfold lookupH
  rw [List.getD_eq_getElem?_getD, List.getD_eq_getElem?_getD, List.getElem?_set_ne hab]

/-- The freshly allocated cell holds the allocated contents. -/
theorem lookupH_append_self (h : Heap) (L : List PyObj) :
    lookupH (h ++ [L]) h.length = L := by
  unfold lookupH
  rw [List.getD_eq_getElem _ _ (by simp)]
  exact List.getElem_concat_length h L h.length rfl _

/-- Installing a list default allocates two fresh cells (one by
`copy.copy`, one by `ListType.__set__`), both holding the default's
element values, and hands back a reference to the second. -/
theorem initDefault_ref (h : Heap) (a : Nat) :
    initDefault h (PyObj.vRef a)
      = (PyObj.vRef (h.length + 1), h ++ [lookupH h a, lookupH h a]) := by
  simp [initDefault, copyShallow, listTypeSet, lookupH_append_self]

/-- Claim C5, amended: the constructor stores a shallow copy of the
default, not a deep one: the two instances receive distinct fresh
top-level containers, also distinct from the default's, so a top-level
write through instance 1 leaves instance 2's container and the default's
container unchanged — while state nested below the top level stays shared
(the counterexample). -/
theorem c5_amended (h : Heap) (a : Nat) (ha : a < h.length) (i : Nat) (x : PyObj) :
    (initDefault h (PyObj.vRef a)).1 = PyObj.vRef (h.length + 1) ∧
    (initDefault (initDefault h (PyObj.vRef a)).2 (PyObj.vRef a)).1
      = PyObj.vRef (h.length + 3) ∧
    PyObj.vRef (h.length + 1) ≠ PyObj.vRef (h.length + 3) ∧
    PyObj.vRef (h.length + 1) ≠ PyObj.vRef a ∧
    lookupH (writeElem (initDefault (initDefault h (PyObj.vRef a)).2 (PyObj.vRef a)).2
        (PyObj.vRef (h.length + 1)) i x) (h.length + 3)
      = lookupH (initDefault (initDefault h (PyObj.vRef a)).2 (PyObj.vRef a)).2
          (h.length + 3) ∧
    lookupH (writeElem (initDefault (initDefault h (PyObj.vRef a)).2 (PyObj.vRef a)).2
        (PyObj.vRef (h.length + 1)) i x) a
      = lookupH (initDefault (initDefault h (PyObj.vRef a)).2 (PyObj.vRef a)).2 a := by
  rw [initDefault_ref h a]
  simp only [initDefault_ref, writeElem]
  refine ⟨trivial, ?_, ?_, ?_, ?_, ?_⟩
  · simp only [List.length_append, List.length_cons, List.length_nil, PyObj.vRef.injEq]
  · simp only [ne_eq, PyObj.vRef.injEq]
    omega
  · simp only [ne_eq, PyObj.vRef.injEq]
    omega
  · exact lookupH_set_ne _ _ _ _ (by omega)
  · exact lookupH_set_ne _ _ _ _ (by omega)

/-- Witness for C5 on the one-cell heap `hW`. -/
theorem c5_amended_witness :
    0 < hW.length ∧
    ((initDefault hW (PyObj.vRef 0)).1 = PyObj.vRef (hW.length + 1) ∧
     (initDefault (initDefault hW (PyObj.vRef 0)).2 (PyObj.vRef 0)).1
       = PyObj.vRef (hW.length + 3) ∧
     PyObj.vRef (hW.length + 1) ≠ PyObj.vRef (hW.length + 3) ∧
     PyObj.vRef (hW.length + 1) ≠ PyObj.vRef 0 ∧
     lookupH (writeElem (initDefault (initDefault hW (PyObj.vRef 0)).2 (PyObj.vRef 0)).2
         (PyObj.vRef (hW.length + 1)) 0 (PyObj.vInt 5)) (hW.length + 3)
       = lookupH (initDefault (initDefault hW (PyObj.vRef 0)).2 (PyObj.vRef 0)).2
           (hW.length + 3) ∧
     lookupH (writeElem (initDefault (initDefault hW (PyObj.vRef 0)).2 (PyObj.vRef 0)).2
         (PyObj.vRef (hW.length + 1)) 0 (PyObj.vInt 5)) 0
       = lookupH (initDefault (initDefault hW (PyObj.vRef 0)).2 (PyObj.vRef 0)).2 0) :=
  ⟨by decide, c5_amended hW 0 (by decide) 0 (PyObj.vInt 5)⟩

/-- The debracket level loop, started at index `k` with
`n = k + rest.length + 1`, can only fire at the last element, so it
returns exactly whether the final level is zero. -/
theorem bracketLoop_eq (bp : Char × Char) :
    ∀ (rest : List Char) (k : Nat) (lvl : Int), rest ≠ [] →
      bracketLoop bp (k + rest.length + 1) rest k lvl
        = decide ((rest.foldl
            (fun l c => if c = bp.1 then l + 1 else if c = bp.2 then l - 1 else l) lvl) = 0) := by
  intro rest
  induction rest with
  | nil => intro k lvl h; exact absurd rfl h
  | cons c rest ih =>
    intro k lvl _
    by_cases hr : rest = []
    · subst hr
      simp only [bracketLoop, List.foldl_cons, List.foldl_nil, List.length_cons,
        List.length_nil]
      by_cases h0 : (if c = bp.1 then lvl + 1 else if c = bp.2 then lvl - 1 else lvl) = 0 <;>
        simp [bracketLoop, h0]
    · have hpos : 0 < rest.length := List.length_pos.mpr hr
      simp only [bracketLoop, List.length_cons, List.foldl_cons]
      rw [if_neg (by rintro ⟨-, hk⟩; omega)]
      have harith : k + (rest.length + 1) + 1 = (k + 1) + rest.length + 1 := by omega
      rw [harith]
      exact ih (k + 1) _ hr

/-- Claim C7, amended: the debracket step strips one character from each
end iff the text has length at least 3, starts and ends with the matching
bracket pair, and the depth counter is 0 at the final position — an early
interior return to 0 does not prevent stripping, since the source loop
only tests the counter at the final index. -/
theorem c7_amended (bp : Char × Char) (t : List Char) :
    debracketCond bp t = true ↔
      (2 < t.length ∧ t.getD 0 ' ' = bp.1 ∧ t.getLastD ' ' = bp.2 ∧
        levelAfter bp t (t.length - 2) = 0) := by
  have key : 2 < t.length →
      (bracketLoop bp t.length (t.drop 1) 0 1 = true ↔
        levelAfter bp t (t.length - 2) = 0) := by
    intro hlen
    have hdl : (t.drop 1).length = t.length - 1 := List.length_drop 1 t
    have hne : t.drop 1 ≠ [] := by
      intro hc
      rw [hc] at hdl
      simp at hdl
      omega
    have hn : t.length = 0 + (t.drop 1).length + 1 := by omega
    rw [hn, bracketLoop_eq bp (t.drop 1) 0 1 hne]
    unfold levelAfter
    rw [List.take_of_length_le (by omega)]
    simp
  unfold debracketCond
  simp only [decide_eq_true_eq]
  constructor
  · rintro ⟨h1, h2, h3, h4⟩
    exact ⟨h1, h2, h3, (key h1).mp h4⟩
  · rintro ⟨h1, h2, h3, h4⟩
    exact ⟨h1, h2, h3, (key h1).mpr h4⟩

/-- Claim C8, amended: the refiner is not idempotent in general — the
debracket step can fire again on an emitted span (the counterexample).
What does hold is the sufficient condition: a non-degenerate span
(`start < end`) whose covered text triggers no step — no disallowed
prefix or suffix matches, the debracket guard fails for both pairs, the
separator tokenization yields a single component, and no special matches
— is re-emitted unchanged.  (Only sufficiency: a step can also fire and
happen to reproduce the span, e.g. a special whose single group is the
whole text.) -/
theorem c8_amended (cfg : RefCfg) (sent : List Char) (s e : Nat)
    (hse : s < e)
    (hpre : cfg.prefixes.find? (fun p => p.isPrefixOf ((slice sent s e).map Char.toLower)) = none)
    (hsuf : cfg.suffixes.find? (fun p => p.isSuffixOf ((slice sent s e).map Char.toLower)) = none)
    (hdb1 : debracketCond ('(', ')') (slice sent s e) = false)
    (hdb2 : debracketCond ('[', ']') (slice sent s e) = false)
    (hcomp : (spanTokenizeSep (slice sent s e)).length ≤ 1)
    (hspec : cfg.specials.findSome? (fun f => f (slice sent s e)) = none) :
    refine cfg sent s e = [⟨slice sent s e, s, e⟩] := by
  unfold refine debracketStep
  simp only [hpre, hsuf, hdb1, hdb2, Bool.false_eq_true, if_false]
  rw [if_neg (by omega : ¬ s ≥ e)]
  rw [if_neg (by omega : ¬ 1 < (spanTokenizeSep (slice sent s e)).length)]
  simp [hspec]

/-- Witness for C8: the single-character hit `"x"` under the empty
configuration refines to itself. -/
theorem c8_amended_witness :
    (0 : Nat) < 1 ∧
    refine emptyCfg "x".data 0 1 = [⟨slice "x".data 0 1, 0, 1⟩] :=
  ⟨by decide, c8_amended emptyCfg "x".data 0 1 (by decide) rfl rfl (by decide)
    (by decide) (by decide) rfl⟩

/-- A non-empty field survives `merge_all` unchanged. -/
theorem mergeAllRec_self_isSome (ctx : Nat → Bool) (r d : MRec) (f : Nat)
    (h : (r f).isSome) : mergeAllRec ctx r d f = r f := by
  unfold mergeAllRec
  cases hr : r f with
  | some v => rfl
  | none => rw [hr] at h; simp at h

/-- A non-contextual field survives `merge_all` unchanged. -/
theorem mergeAllRec_ctx_false (ctx : Nat → Bool) (r d : MRec) (f : Nat)
    (h : ctx f = false) : mergeAllRec ctx r d f = r f := by
  unfold mergeAllRec
  cases hr : r f with
  | some v => rfl
  | none => simp [h]

/-- `merge_all` never empties a field. -/
theorem mergeAllRec_isSome_mono (ctx : Nat → Bool) (r d : MRec) (f : Nat)
    (h : (r f).isSome) : (mergeAllRec ctx r d f).isSome := by
  rw [mergeAllRec_self_isSome ctx r d f h]; exact h

/-- An empty contextual field takes the donor's value. -/
theorem mergeAllRec_none_ctx (ctx : Nat → Bool) (r d : MRec) (f : Nat)
    (hr : r f = none) (hc : ctx f = true) : mergeAllRec ctx r d f = d f := by
  unfold mergeAllRec
  rw [hr]
  simp [hc]

/-- Every value after `merge_all` comes either from the record or from the
donor through an empty contextual field. -/
theorem mergeAllRec_cases (ctx : Nat → Bool) (r d : MRec) (f : Nat) (v : Nat)
    (h : mergeAllRec ctx r d f = some v) :
    r f = some v ∨ (r f = none ∧ ctx f = true ∧ d f = some v) := by
  unfold mergeAllRec at h
  cases hr : r f with
  | some w => rw [hr] at h; exact Or.inl h
  | none =>
    rw [hr] at h
    cases hc : ctx f with
    | true => rw [hc] at h; simp only [if_true] at h; exact Or.inr ⟨rfl, rfl, h⟩
    | false => rw [hc] at h; simp at h

/-- The inner merge loop never changes the number of records. -/
theorem length_mergePassInner (ctx : Nat → Bool) (recs : List MRec) (i : Nat) :
    (mergePassInner ctx recs i).length = recs.length := by
  unfold mergePassInner
  exact List.length_mapIdx

/-- Out-of-range positions read as the empty record. -/
theorem getD_out (l : List MRec) (j : Nat) (h : l.length ≤ j) :
    l.getD j mrecNone = mrecNone := List.getD_eq_default _ _ h

/-- Entry-wise description of one inner merge loop. -/
theorem getD_mergePassInner (ctx : Nat → Bool) (recs : List MRec) (i j : Nat)
    (hj : j < recs.length) :
    (mergePassInner ctx recs i).getD j mrecNone
      = if j = i then recs.getD j mrecNone
        else mergeAllRec ctx (recs.getD j mrecNone) (recs.getD i mrecNone) := by
  unfold mergePassInner
  rw [List.getD_eq_getElem _ _ (by rw [List.length_mapIdx]; exact hj)]
  rw [List.getElem_mapIdx]
  rw [List.getD_eq_getElem _ _ hj]

/-- The merge invariant holds before any donor is processed. -/
theorem mergeInv_base (ctx : Nat → Bool) (v0 : Nat → Nat) (orig : List MRec)
    (hcf : conflictFree ctx v0 orig) : mergeInv ctx v0 orig orig 0 := by
  refine ⟨rfl, fun _ _ _ => rfl, fun _ _ _ => rfl, ?_, ?_⟩
  · intro j f v hctx hv
    by_cases hj : j < orig.length
    · have hmem : orig.getD j mrecNone ∈ orig := by
        rw [List.getD_eq_getElem _ _ hj]
        exact List.getElem_mem hj
      refine ⟨hcf _ hmem f v hctx hv, ?_⟩
      unfold anyHas
      rw [List.any_eq_true]
      exact ⟨_, hmem, by rw [hv]; rfl⟩
    · rw [getD_out orig j (Nat.le_of_not_lt hj)] at hv
      exact absurd hv (by simp [mrecNone])
  · rintro j f _ _ ⟨i, hik, -⟩
    omega

/-- Processing the next donor preserves the merge invariant. -/
theorem mergeInv_step (ctx : Nat → Bool) (v0 : Nat → Nat) (orig cur : List MRec)
    (k : Nat) (hk : k < orig.length) (hq : mergeInv ctx v0 orig cur k) :
    mergeInv ctx v0 orig (mergePassInner ctx cur k) (k + 1) := by
  obtain ⟨hlen, hA1, hA2, hB, hC⟩ := hq
  have hget : ∀ j, j < cur.length →
      (mergePassInner ctx cur k).getD j mrecNone
        = if j = k then cur.getD j mrecNone
          else mergeAllRec ctx (cur.getD j mrecNone) (cur.getD k mrecNone) :=
    fun j hj => getD_mergePassInner ctx cur k j hj
  have hout : ∀ j, cur.length ≤ j →
      (mergePassInner ctx cur k).getD j mrecNone = mrecNone :=
    fun j hj => getD_out _ _ (by rw [length_mergePassInner]; exact hj)
  refine ⟨by rw [length_mergePassInner, hlen], ?_, ?_, ?_, ?_⟩
  · -- non-contextual fields untouched
    intro j f hcf
    by_cases hj : j < cur.length
    · rw [hget j hj]
      by_cases hjk : j = k
      · rw [if_pos hjk]; exact hA1 j f hcf
      · rw [if_neg hjk, mergeAllRec_ctx_false ctx _ _ f hcf]; exact hA1 j f hcf
    · rw [hout j (Nat.le_of_not_lt hj), getD_out orig j (by omega)]
  · -- originally non-empty fields untouched
    intro j f hsome
    by_cases hj : j < cur.length
    · rw [hget j hj]
      have h2 := hA2 j f hsome
      by_cases hjk : j = k
      · rw [if_pos hjk]; exact h2
      · rw [if_neg hjk, mergeAllRec_self_isSome ctx _ _ f (by rw [h2]; exact hsome)]
        exact h2
    · rw [getD_out orig j (by omega)] at hsome
      simp [mrecNone] at hsome
  · -- every stored contextual value is the common value of a present field
    intro j f v hctx hv
    by_cases hj : j < cur.length
    · rw [hget j hj] at hv
      by_cases hjk : j = k
      · rw [if_pos hjk] at hv; exact hB j f v hctx hv
      · rw [if_neg hjk] at hv
        rcases mergeAllRec_cases ctx _ _ f v hv with h | ⟨-, -, h3⟩
        · exact hB j f v hctx h
        · exact hB k f v hctx h3
    · rw [hout j (Nat.le_of_not_lt hj)] at hv
      exact absurd hv (by simp [mrecNone])
  · -- progress: donors below k+1 fill everyone
    rintro j f hjn hcf ⟨i, hik, hio⟩
    have hj : j < cur.length := by rw [hlen]; exact hjn
    rw [hget j hj]
    by_cases hik' : i < k
    · have hcur := hC j f hjn hcf ⟨i, hik', hio⟩
      by_cases hjk : j = k
      · rw [if_pos hjk]; exact hcur
      · rw [if_neg hjk]; exact mergeAllRec_isSome_mono ctx _ _ f hcur
    · have hik2 : i = k := by omega
      subst hik2
      have hdon : (cur.getD i mrecNone) f = (orig.getD i mrecNone) f := hA2 i f hio
      have hdonsome : ((cur.getD i mrecNone) f).isSome := by rw [hdon]; exact hio
      by_cases hjk : j = i
      · rw [if_pos hjk, hjk]; exact hdonsome
      · rw [if_neg hjk]
        cases hcj : (cur.getD j mrecNone) f with
        | some v => exact mergeAllRec_isSome_mono ctx _ _ f (by rw [hcj]; rfl)
        | none => rw [mergeAllRec_none_ctx ctx _ _ f hcj hcf]; exact hdonsome

/-- The merge invariant after processing the first `k` donors. -/
theorem mergeInv_fold (ctx : Nat → Bool) (v0 : Nat → Nat) (orig : List MRec)
    (hcf : conflictFree ctx v0 orig) :
    ∀ k, k ≤ orig.length →
      mergeInv ctx v0 orig ((List.range k).foldl (mergePassInner ctx) orig) k := by
  intro k
  induction k with
  | zero => intro _; simpa using mergeInv_base ctx v0 orig hcf
  | succ k ih =>
    intro hk
    rw [List.range_succ, List.foldl_append]
    simp only [List.foldl_cons, List.foldl_nil]
    exact mergeInv_step ctx v0 orig _ k (by omega) (ih (by omega))

/-- On a conflict-free record set the merge pass computes, for every
record independently of any ordering, the backfill closed form. -/
theorem mergePass_eq_fill (ctx : Nat → Bool) (v0 : Nat → Nat) (recs : List MRec)
    (hcf : conflictFree ctx v0 recs) :
    mergePass ctx recs = recs.map (fillWith ctx v0 recs) := by
  obtain ⟨hlen, hA1, hA2, hB, hC⟩ := mergeInv_fold ctx v0 recs hcf recs.length le_rfl
  have hcur : mergePass ctx recs = (List.range recs.length).foldl (mergePassInner ctx) recs := rfl
  apply List.ext_getElem
  · rw [hcur]
    rw [hlen, List.length_map]
  · intro n h1 h2
    have hn : n < recs.length := by simpa using h2
    rw [List.getElem_map]
    have e1 : (mergePass ctx recs)[n]
        = ((List.range recs.length).foldl (mergePassInner ctx) recs).getD n mrecNone := by
      rw [List.getD_eq_getElem _ _ (by rw [hlen]; exact hn)]
      rfl
    have e2 : recs[n] = recs.getD n mrecNone := (List.getD_eq_getElem _ _ hn).symm
    rw [e1, e2]
    funext f
    cases horig : (recs.getD n mrecNone) f with
    | some v =>
      rw [hA2 n f (by rw [horig]; rfl), horig]
      unfold fillWith
      rw [horig]
    | none =>
      unfold fillWith
      rw [horig]
      cases hcb : ctx f with
      | false =>
        rw [hA1 n f hcb, horig]
        simp
      | true =>
        cases hany : anyHas recs f with
        | true =>
          have hex : ∃ i, i < recs.length ∧ ((recs.getD i mrecNone) f).isSome := by
            unfold anyHas at hany
            rw [List.any_eq_true] at hany
            obtain ⟨r, hrmem, hrsome⟩ := hany
            obtain ⟨i, hi, hieq⟩ := List.mem_iff_getElem.mp hrmem
            refine ⟨i, hi, ?_⟩
            rw [List.getD_eq_getElem _ _ hi, hieq]
            exact hrsome
          have hsome := hC n f hn hcb hex
          cases hv : ((List.range recs.length).foldl (mergePassInner ctx) recs).getD n mrecNone f with
          | none => rw [hv] at hsome; simp at hsome
          | some v =>
            have := (hB n f v hcb hv).1
            subst this
            simp
        | false =>
          simp only [Bool.and_false, if_false]
          cases hv : ((List.range recs.length).foldl (mergePassInner ctx) recs).getD n mrecNone f with
          | none => rfl
          | some v =>
            have := (hB n f v hcb hv).2
            rw [hany] at this
            simp at this

/-- Claim C3, amended: the merge pass never removes a record, and on a
record set that is conflict-free on its contextual fields (no two records
holding distinct non-empty values for the same contextual field — the
condition the counterexample shows necessary; non-contextual fields are
unconstrained, `merge_all` never touching them) the final field values do
not depend on the acceptance order: any permutation of the set ends with
each record equal to its order-independent backfill closed form. -/
theorem c3_amended (ctx : Nat → Bool) (v0 : Nat → Nat) (recs recs' : List MRec)
    (hperm : recs.Perm recs') (hcf : conflictFree ctx v0 recs) :
    (mergePass ctx recs').length = recs'.length ∧
    mergePass ctx recs' = recs'.map (fillWith ctx v0 recs) := by
  have hcf' : conflictFree ctx v0 recs' := fun r hr => hcf r (hperm.mem_iff.mpr hr)
  have hany : ∀ f, anyHas recs' f = anyHas recs f := by
    intro f
    unfold anyHas
    rw [Bool.eq_iff_iff, List.any_eq_true, List.any_eq_true]
    constructor
    · rintro ⟨r, hr, h⟩
      exact ⟨r, hperm.mem_iff.mpr hr, h⟩
    · rintro ⟨r, hr, h⟩
      exact ⟨r, hperm.mem_iff.mp hr, h⟩
  have hfill : fillWith ctx v0 recs' = fillWith ctx v0 recs := by
    funext r f
    unfold fillWith
    rw [hany f]
  have hmain := mergePass_eq_fill ctx v0 recs' hcf'
  rw [hfill] at hmain
  exact ⟨by rw [hmain, List.length_map], hmain⟩

/-- Witness for C3 on the conflict-free pair (a full record of ones, an
empty record), permuted. -/
theorem c3_amended_witness :
    ([recOne, mrecNone] : List MRec).Perm [mrecNone, recOne] ∧
    ((mergePass ctxAll [mrecNone, recOne]).length
        = ([mrecNone, recOne] : List MRec).length ∧
     mergePass ctxAll [mrecNone, recOne]
        = ([mrecNone, recOne] : List MRec).map (fillWith ctxAll (fun _ => 1) [recOne, mrecNone])) := by
  have hperm : ([recOne, mrecNone] : List MRec).Perm [mrecNone, recOne] :=
    List.Perm.swap mrecNone recOne []
  have hcf : conflictFree ctxAll (fun _ => 1) [recOne, mrecNone] := by
    intro r hr f v hctx hv
    rcases List.mem_cons.mp hr with rfl | hr2
    · show v = 1
      simp [recOne] at hv
      omega
    · rcases List.mem_cons.mp hr2 with rfl | h3
      · simp [mrecNone] at hv
      · simp at h3
  exact ⟨hperm, c3_amended ctxAll (fun _ => 1) [recOne, mrecNone] [mrecNone, recOne] hperm hcf⟩

end CdePv
